import Mathlib

/-!
Verification model of the launchpad-retracer-operator charm.

The development shallowly embeds the two source modules:

* src/retracer.py — the Retracer class: proxy handling in Retracer.__init__,
  the systemd-unit reconciler Retracer._setup_systemd_units, the credential
  handling in Retracer.import_lpcredentials / Retracer.has_credentials, and
  Retracer.start.
* src/charm.py — the LaunchpadRetracerCharm event handlers _on_install,
  _on_start, _on_config_changed and the helper _get_architectures.

Python strings are modelled as lists of characters.  The systemd service
manager and the filesystem are modelled as explicit state (unit files,
the timers.target.wants directory, and the set of running units), and the
external calls a run performs are recorded in a trace.  Failures of the
external systemd/filesystem calls are injected through an oracle so that
the best-effort retirement loop of _setup_systemd_units can be analysed.
-/

abbrev Str := List Char

/-- Characters of a string literal.  The model works over lists of
characters so that standard list lemmas apply directly. -/
def chars (s : String) : Str := s.data

/-- Python t.split(sep) for a one-character separator: cuts at every
occurrence of sep, keeping empty pieces.  The result is always non-empty. -/
def pySplit (sep : Char) : Str → List Str
  | [] => [[]]
  | c :: cs =>
    match pySplit sep cs with
    | [] => [[]]
    | r :: rs => if c = sep then [] :: r :: rs else (c :: r) :: rs

/-- Python s.split() with no argument: split on whitespace runs, dropping
empty pieces (used by charm.py _get_architectures, line 136). -/
def pySplitWs (s : Str) : List Str :=
  (List.splitOnP (fun c => c.isWhitespace) s).filter (fun w => decide (w ≠ []))

/-- Python str.upper restricted to the ASCII protocol names that occur in
retracer.py ("http", "https"). -/
def pyUpper (s : Str) : Str := s.map Char.toUpper

/-- Python truthiness of an optional environment-variable value: None and
the empty string are falsy (retracer.py lines 47 and 51). -/
def pyTruthy : Option Str → Bool
  | none => false
  | some s => decide (s ≠ [])

/- Fixed names used by retracer.py. -/

/-- Shared first part of every worker unit name, up to and including the
'@' of the systemd template instance syntax. -/
def workerAt : Str := chars "launchpad-retracer-worker@"

/-- File extension of a systemd timer unit. -/
def timerExt : Str := chars ".timer"

/-- File extension of a systemd service unit. -/
def serviceExt : Str := chars ".service"

/-- Instance timer unit name launchpad-retracer-worker@ARCH.timer. -/
def workerTimerName (a : Str) : Str := workerAt ++ a ++ timerExt

/-- Instance service unit name launchpad-retracer-worker@ARCH.service. -/
def workerServiceName (a : Str) : Str := workerAt ++ a ++ serviceExt

/-- Architecture-independent dupcheck service unit name. -/
def dupServiceName : Str := chars "launchpad-retracer-dupcheck.service"

/-- Architecture-independent dupcheck timer unit name. -/
def dupTimerName : Str := chars "launchpad-retracer-dupcheck.timer"

/-- Worker service template file name written to the unit directory. -/
def workerServiceTemplateName : Str := chars "launchpad-retracer-worker@.service"

/-- Worker timer template file name written to the unit directory. -/
def workerTimerTemplateName : Str := chars "launchpad-retracer-worker@.timer"

/-- Directory listed by the glob in retracer.py line 150. -/
def wantsPath : Str := chars "/etc/systemd/system/timers.target.wants/"

/-- Token extraction of retracer.py line 152, applied to a matched path t:
t.split("@")[1].split(".")[0].  Python raises IndexError when t has no
'@'; every glob match contains one, and the model totalises the index
with an empty default. -/
def extractToken (t : Str) : Str :=
  (pySplit '.' ((pySplit '@' t).getD 1 [])).getD 0 []

/-- Middle part of a file name, between the worker glob pattern's fixed
first part and its fixed extension. -/
def globMid (n : Str) : Str :=
  (n.drop workerAt.length).take (n.length - workerAt.length - timerExt.length)

/-- Matching of the glob pattern launchpad-retracer-worker@*.timer from
retracer.py line 150: the fixed text around the star must be present and
the star matches any characters except the path separator. -/
def globMatch (n : Str) : Bool :=
  decide (workerAt.length + timerExt.length ≤ n.length) &&
  decide (n.take workerAt.length = workerAt) &&
  decide (n.drop (n.length - timerExt.length) = timerExt) &&
  !(globMid n).any (fun c => decide (c = '/'))

/-- Architecture token usable in unit names without colliding with the
filename convention: no '.', no '@' (the separators the extraction of
line 152 cuts at) and no '/' (not matched by the glob star, and invalid
in file names). -/
def cleanTok (a : Str) : Bool :=
  !a.any (fun c => decide (c = '.') || decide (c = '@') || decide (c = '/'))

/- Proxy configuration, from Retracer.__init__ (retracer.py lines 41-54). -/

/-- Proxy mapping built by Retracer.__init__ from the optional
JUJU_CHARM_HTTP_PROXY / JUJU_CHARM_HTTPS_PROXY environment values:
insertion-ordered pairs of protocol and proxy URL, one per truthy value. -/
def initProxies (httpVal httpsVal : Option Str) : List (Str × Str) :=
  (if pyTruthy httpVal then [(chars "http", httpVal.getD [])] else []) ++
  (if pyTruthy httpsVal then [(chars "https", httpsVal.getD [])] else [])

/-- Proxy environment block of retracer.py lines 121-124: starting from the
empty string, each protocol appends one line with the protocol as-is and
one line with the protocol uppercased; both keys end in lower-case
"_proxy". -/
def proxyBlock (ps : List (Str × Str)) : Str :=
  ps.foldl
    (fun acc p =>
      acc ++ (chars "\nEnvironment=" ++ p.1 ++ chars "_proxy=" ++ p.2 ++
        (chars "\nEnvironment=" ++ pyUpper p.1 ++ chars "_proxy=" ++ p.2)))
    []

/-- Content of one rendered Environment line, without the leading newline. -/
def envKeyLine (key url : Str) : Str :=
  chars "Environment=" ++ key ++ chars "_proxy=" ++ url

/-- Lines the proxy block is made of, in order: for each configured
protocol, the lower-case-protocol line then the uppercased-protocol line. -/
def proxyLines (ps : List (Str × Str)) : List Str :=
  ps.flatMap (fun p => [envKeyLine p.1 p.2, envKeyLine (pyUpper p.1) p.2])

/- State model of the systemd service manager and the unit directory. -/

/-- Host state seen by _setup_systemd_units: unit files on disk (name and
content), enabled timer links in timers.target.wants, and running units. -/
structure SysState where
  unitFiles : List (Str × Str)
  wantsDir : List Str
  active : List Str
deriving DecidableEq

/-- External calls _setup_systemd_units performs, in the vocabulary of the
systemd helper library and pathlib used by retracer.py. -/
inductive SysCall
  | writeUnit (name content : Str)
  | enableNow (unit : Str)
  | daemonReload
  | stopUnit (unit : Str)
  | disableUnit (unit : Str)
  | unlinkUnit (name : Str)
deriving DecidableEq

/-- Trace events: an attempted external call, or the warning logged when
one architecture's retirement fails (retracer.py line 173). -/
inductive Ev
  | call (c : SysCall)
  | warn (arch : Str)
deriving DecidableEq

/-- Failure injection for external calls: true means the call raises. -/
abbrev Oracle := SysCall → Bool

/-- Oracle under which every external call succeeds. -/
def noFail : Oracle := fun _ => false

/-- Insert a unit name into a directory listing if it is not yet present. -/
def addIfAbsent (n : Str) (l : List Str) : List Str :=
  if n ∈ l then l else n :: l

/-- Effect of one successful external call on the host state.
writeUnit overwrites (write_text); enableNow links the timer into
timers.target.wants and starts it, idempotently (systemctl enable - -now);
stopUnit removes the unit from the running set; disableUnit removes the
wants link; unlinkUnit deletes a unit file, tolerating its absence
(unlink with missing_ok=True). -/
def applyCall (s : SysState) : SysCall → SysState
  | .writeUnit n c =>
      { s with unitFiles := (n, c) :: s.unitFiles.filter (fun p => decide (p.1 ≠ n)) }
  | .enableNow u =>
      { s with wantsDir := addIfAbsent u s.wantsDir, active := addIfAbsent u s.active }
  | .daemonReload => s
  | .stopUnit u => { s with active := s.active.filter (fun n => decide (n ≠ u)) }
  | .disableUnit u => { s with wantsDir := s.wantsDir.filter (fun n => decide (n ≠ u)) }
  | .unlinkUnit n =>
      { s with unitFiles := s.unitFiles.filter (fun p => decide (p.1 ≠ n)) }

/-- State after a sequence of successful calls. -/
def applyAll (s : SysState) (cs : List SysCall) : SysState :=
  cs.foldl applyCall s

/-- Outcome of a reconciliation run: whether it returned without an
uncaught exception, the final host state, and the trace of events. -/
structure RunResult where
  ok : Bool
  state : SysState
  trace : List Ev
deriving DecidableEq

/-- Fail-fast execution of a call sequence: the first raising call aborts
the remainder (exceptions here are not caught by _setup_systemd_units). -/
def runSeq (ora : Oracle) : SysState → List SysCall → RunResult
  | s, [] => ⟨true, s, []⟩
  | s, c :: cs =>
    if ora c then ⟨false, s, [.call c]⟩
    else
      let r := runSeq ora (applyCall s c) cs
      ⟨r.ok, r.state, .call c :: r.trace⟩

/-- Execution of one architecture's retirement calls under the per-
architecture try/except of retracer.py lines 161-173: the first raising
call aborts the rest of this architecture's calls and a warning for the
architecture is logged; the loop itself never propagates the error. -/
def runCallsBestEffort (ora : Oracle) (arch : Str) : SysState → List SysCall → SysState × List Ev
  | s, [] => (s, [])
  | s, c :: cs =>
    if ora c then (s, [.call c, .warn arch])
    else
      let r := runCallsBestEffort ora arch (applyCall s c) cs
      (r.1, .call c :: r.2)

/-- Trace produced by a best-effort call sequence (it does not depend on
the starting state). -/
def attemptTrace (ora : Oracle) (arch : Str) : List SysCall → List Ev
  | [] => []
  | c :: cs =>
    if ora c then [.call c, .warn arch]
    else .call c :: attemptTrace ora arch cs

/-- Calls retiring one architecture, in the order of retracer.py lines
162-170: stop the timer, stop the service, disable the timer, delete the
timer file, delete the service file. -/
def retireCalls (a : Str) : List SysCall :=
  [ .stopUnit (workerTimerName a),
    .stopUnit (workerServiceName a),
    .disableUnit (workerTimerName a),
    .unlinkUnit (workerTimerName a),
    .unlinkUnit (workerServiceName a) ]

/-- Retirement loop of retracer.py lines 159-173: every discovered
architecture not in the desired list is retired best-effort,
independently of the other retirements. -/
def runRetirements (ora : Oracle) (archs : List Str) : List Str → SysState → SysState × List Ev
  | [], s => (s, [])
  | b :: rest, s =>
    if b ∈ archs then runRetirements ora archs rest s
    else
      let r1 := runCallsBestEffort ora b s (retireCalls b)
      let r2 := runRetirements ora archs rest r1.1
      (r2.1, r1.2 ++ r2.2)

/-- Unit template texts read from the charm's src/systemd directory
(retracer.py lines 127-130 and 139-140); their content is opaque to the
reconciler. -/
structure Templates where
  dupService : Str
  dupTimer : Str
  workerService : Str
  workerTimer : Str
deriving DecidableEq

/-- Unconditional write-and-reload calls of retracer.py lines 126-146, in
source order.  The proxy block pb is appended to the two service files
only; both timer files are written as read from the templates. -/
def mainCalls (pb : Str) (tm : Templates) : List SysCall :=
  [ .writeUnit dupServiceName (tm.dupService ++ pb),
    .writeUnit dupTimerName tm.dupTimer,
    .enableNow dupTimerName,
    .writeUnit workerServiceTemplateName (tm.workerService ++ pb),
    .writeUnit workerTimerTemplateName tm.workerTimer,
    .daemonReload ]

/-- Enable calls of retracer.py lines 155-156, one per desired
architecture, in list order. -/
def enableCalls (archs : List Str) : List SysCall :=
  archs.map (fun a => .enableNow (workerTimerName a))

/-- Live-set discovery of retracer.py lines 149-152: list the wants
directory entries matching the worker glob and extract each one's token
from its full path. -/
def currentArchs (s : SysState) : List Str :=
  (s.wantsDir.filter globMatch).map (fun n => extractToken (wantsPath ++ n))

/-- Model of Retracer._setup_systemd_units (retracer.py lines 116-175):
write the four unit files and enable the dupcheck timer, reload the
daemon, discover the live worker architectures, enable a timer for every
desired architecture, then retire the live architectures that are no
longer desired.  The initial mkdir of the unit directory has no effect on
the modelled state and is omitted. -/
def setupSystemdUnits (ora : Oracle) (tm : Templates) (ps : List (Str × Str))
    (archs : List Str) (s : SysState) : RunResult :=
  let r1 := runSeq ora s (mainCalls (proxyBlock ps) tm)
  if r1.ok then
    let current := currentArchs r1.state
    let r2 := runSeq ora r1.state (enableCalls archs)
    if r2.ok then
      let r3 := runRetirements ora archs current r2.state
      ⟨true, r3.1, r1.trace ++ r2.trace ++ r3.2⟩
    else ⟨false, r2.state, r1.trace ++ r2.trace⟩
  else ⟨false, r1.state, r1.trace⟩

/-- Unit-file writes recorded in a trace, with their contents. -/
def writesOf (tr : List Ev) : List (Str × Str) :=
  tr.filterMap (fun e =>
    match e with
    | .call (.writeUnit n c) => some (n, c)
    | _ => none)

/-- Events belonging to the retirement phase: stop, disable and delete
calls, and retirement warnings. -/
def isRetireEv : Ev → Bool
  | .call (.stopUnit _) => true
  | .call (.disableUnit _) => true
  | .call (.unlinkUnit _) => true
  | .warn _ => true
  | _ => false

/- Filesystem model for the credential file. -/

/-- Metadata and content of one file. -/
structure FileMeta where
  content : Str
  mode : Nat
  owner : Str
  group : Str
deriving DecidableEq

/-- Filesystem as a finite map from paths to files. -/
abbrev FS := List (Str × FileMeta)

/-- File stored at a path, if any. -/
def fsGet (fs : FS) (p : Str) : Option FileMeta :=
  (fs.find? (fun e => decide (e.1 = p))).map (fun e => e.2)

/-- Filesystem with the file at a path replaced or created. -/
def fsSet (fs : FS) (p : Str) (m : FileMeta) : FS :=
  (p, m) :: fs.filter (fun e => decide (e.1 ≠ p))

/-- Fixed credential path LP_CREDENTIALS of retracer.py line 33. -/
def lpCredentialsPath : Str := chars "/app/launchpad-credentials"

/-- Model of Retracer.import_lpcredentials (retracer.py lines 81-94):
os.open with O_CREAT, O_WRONLY and O_TRUNC and mode 0o600 creates the
file with mode 0600 when it is absent and truncates it keeping its
existing mode when it is present (POSIX: the mode argument applies only
at creation); the content is then written and shutil.chown sets user and
group to the service account "ubuntu". -/
def importLpcredentials (fs : FS) (content : Str) : FS :=
  let m : FileMeta :=
    match fsGet fs lpCredentialsPath with
    | none =>
        { content := content, mode := 0o600, owner := chars "ubuntu", group := chars "ubuntu" }
    | some old =>
        { content := content, mode := old.mode, owner := chars "ubuntu", group := chars "ubuntu" }
  fsSet fs lpCredentialsPath m

/-- Model of Retracer.has_credentials (retracer.py lines 92-94): existence
check of the credential path. -/
def hasCredentials (fs : FS) : Bool :=
  (fsGet fs lpCredentialsPath).isSome

/- Charm handler model, from src/charm.py. -/

/-- Configuration values the handlers read: the raw "architectures" string
and the "launchpad-credentials-id" value, each absent when the key is not
set. -/
structure Config where
  architectures : Option Str
  credentialsId : Option Str
deriving DecidableEq

/-- Unit status surfaced to the orchestrator. -/
inductive Status
  | active
  | maintenance (msg : Str)
  | blocked (msg : Str)
deriving DecidableEq

/-- Side-effecting collaborator operations a handler performs, in order.
installRun and configureRun stand for Retracer.install and
Retracer.configure, the only operations that write unit files. -/
inductive Act
  | importCreds (content : Str)
  | installRun (archs : List Str)
  | configureRun (archs : List Str)
  | setWorkloadVersion (v : Str)
  | gitPull
  | restartNginx
deriving DecidableEq

/-- Python exception classes distinguished by the handlers' except
clauses. -/
inductive PyErr
  | keyError
  | valueError
  | osError
  | calledProcessError
  | packageError
  | packageNotFoundError
  | shutilError
deriving DecidableEq

/-- Result of running a handler: a final status with the performed
operations, or an uncaught exception escaping the handler (with the
operations performed before it was raised). -/
inductive HandlerResult
  | done (st : Status) (acts : List Act)
  | crashed (e : PyErr) (acts : List Act)
deriving DecidableEq

/-- Operations performed by a handler run. -/
def actsOf : HandlerResult → List Act
  | .done _ acts => acts
  | .crashed _ acts => acts

/-- Whether a handler run ended with a blocked status. -/
def isBlocked : HandlerResult → Bool
  | .done (.blocked _) _ => true
  | _ => false

/-- Whether any performed operation writes unit files (Retracer.install or
Retracer.configure). -/
def hasUnitWriteAct (acts : List Act) : Bool :=
  acts.any (fun a =>
    match a with
    | .installRun _ => true
    | .configureRun _ => true
    | _ => false)

/-- Model of LaunchpadRetracerCharm._get_architectures (charm.py lines
134-139): split the "architectures" config value on whitespace and raise
ValueError when the result is empty; a missing key raises KeyError. -/
def getArchitectures (cfg : Config) : Except PyErr (List Str) :=
  match cfg.architectures with
  | none => .error .keyError
  | some v =>
    let archs := pySplitWs v
    if archs = [] then .error .valueError else .ok archs

/-- Exceptions caught by the except clause of _on_install (charm.py lines
51-58). -/
def installCaught : PyErr → Bool
  | .calledProcessError => true
  | .packageError => true
  | .packageNotFoundError => true
  | .osError => true
  | .shutilError => true
  | .valueError => true
  | .keyError => false

/-- Blocked reason of _on_install (charm.py lines 59-61). -/
def installBlockedMsg : Str :=
  chars "Failed to set up the environment. Check `juju debug-log` for details."

/-- Model of LaunchpadRetracerCharm._on_install (charm.py lines 45-63):
validate the architectures, then run Retracer.install; a caught failure
from either step yields the blocked status.  installErr injects the
exception Retracer.install raises, if any. -/
def onInstall (cfg : Config) (installErr : Option PyErr) : HandlerResult :=
  match getArchitectures cfg with
  | .error e =>
    if installCaught e then .done (.blocked installBlockedMsg) [] else .crashed e []
  | .ok archs =>
    match installErr with
    | none => .done .active [.installRun archs]
    | some e =>
      if installCaught e then .done (.blocked installBlockedMsg) [.installRun archs]
      else .crashed e [.installRun archs]

/-- Blocked reason when the launchpad-credentials-id config key is missing
(charm.py line 94). -/
def credIdMsg : Str := chars "Config 'launchpad-credentials-id' required."

/-- Blocked reason when the secret is not retrievable (charm.py lines
101-103). -/
def secretGrantMsg : Str :=
  chars "Secret not available. Check that access was granted."

/-- Blocked reason when the secret content lacks a truthy lpcredentials
key (charm.py lines 109-111). -/
def secretKeyMsg : Str :=
  chars "Secret not available. Check that the 'lpcredentials' key exists."

/-- Blocked reason when credential import fails (charm.py lines 118-120). -/
def importFailMsg : Str :=
  chars "Failed to import the launchpad credentials. Check `juju debug-log` for details."

/-- Blocked reason when validation or configure fails (charm.py lines
127-129). -/
def configureFailMsg : Str :=
  chars "Failed to configure the retracer. Check `juju debug-log` for details."

/-- Lookup of a key in secret content. -/
def lookupKV (kv : List (Str × Str)) (k : Str) : Option Str :=
  (kv.find? (fun p => decide (p.1 = k))).map (fun p => p.2)

/-- Exceptions caught around import_lpcredentials (charm.py line 117). -/
def importCaughtErr : PyErr → Bool
  | .osError => true
  | .keyError => true
  | _ => false

/-- Exceptions caught around _get_architectures and configure (charm.py
line 126). -/
def configureCaughtErr : PyErr → Bool
  | .calledProcessError => true
  | .osError => true
  | .valueError => true
  | _ => false

/-- Model of LaunchpadRetracerCharm._on_config_changed (charm.py lines
86-132): read the secret id, retrieve the secret (secret is none when
retrieval raises), require a truthy lpcredentials value, import the
credentials, and only then validate the architectures and run
Retracer.configure.  importErr and configureErr inject the exceptions
those two collaborator calls raise, if any. -/
def onConfigChanged (cfg : Config) (secret : Option (List (Str × Str)))
    (importErr configureErr : Option PyErr) : HandlerResult :=
  match cfg.credentialsId with
  | none => .done (.blocked credIdMsg) []
  | some _ =>
    match secret with
    | none => .done (.blocked secretGrantMsg) []
    | some content =>
      match lookupKV content (chars "lpcredentials") with
      | none => .done (.blocked secretKeyMsg) []
      | some v =>
        if v = [] then .done (.blocked secretKeyMsg) []
        else
          match importErr with
          | some e =>
            if importCaughtErr e then .done (.blocked importFailMsg) [.importCreds v]
            else .crashed e [.importCreds v]
          | none =>
            match getArchitectures cfg with
            | .error e =>
              if configureCaughtErr e then
                .done (.blocked configureFailMsg) [.importCreds v]
              else .crashed e [.importCreds v]
            | .ok archs =>
              match configureErr with
              | none => .done .active [.importCreds v, .configureRun archs]
              | some e =>
                if configureCaughtErr e then
                  .done (.blocked configureFailMsg) [.importCreds v, .configureRun archs]
                else .crashed e [.importCreds v, .configureRun archs]

/-- Blocked reason of _on_start when the credential file is absent
(charm.py line 74). -/
def credsMissingMsg : Str := chars "Launchpad credentials not available."

/-- Blocked reason of _on_start on a caught failure (charm.py lines
81-83). -/
def startFailMsg : Str :=
  chars "Failed to start services. Check `juju debug-log` for details."

/-- Exceptions caught by _on_start (charm.py line 80). -/
def startCaughtErr : PyErr → Bool
  | .calledProcessError => true
  | .valueError => true
  | _ => false

/-- Model of LaunchpadRetracerCharm._on_start (charm.py lines 65-84)
together with Retracer.start (retracer.py lines 71-79): record the
workload version, return blocked when the credential file is absent,
otherwise validate the architectures and run Retracer.start, which pulls
the configuration checkout and restarts nginx.  pullErr and nginxErr
inject the exceptions of those two steps. -/
def onStart (fs : FS) (cfg : Config) (version : Str)
    (pullErr nginxErr : Option PyErr) : HandlerResult :=
  let acts0 := [Act.setWorkloadVersion version]
  if hasCredentials fs then
    match getArchitectures cfg with
    | .error e =>
      if startCaughtErr e then .done (.blocked startFailMsg) acts0 else .crashed e acts0
    | .ok _ =>
      match pullErr with
      | some e =>
        if startCaughtErr e then .done (.blocked startFailMsg) (acts0 ++ [.gitPull])
        else .crashed e (acts0 ++ [.gitPull])
      | none =>
        match nginxErr with
        | some e =>
          if startCaughtErr e then
            .done (.blocked startFailMsg) (acts0 ++ [.gitPull, .restartNginx])
          else .crashed e (acts0 ++ [.gitPull, .restartNginx])
        | none => .done .active (acts0 ++ [.gitPull, .restartNginx])
  else .done (.blocked credsMissingMsg) acts0

/-- Substring test used to state that a blocked reason mentions a phrase. -/
def strHasSub (needle : Str) : Str → Bool
  | [] => decide (needle = [])
  | c :: rest => needle.isPrefixOf (c :: rest) || strHasSub needle rest

/-- Reading of the specification's phrase "the architecture token is
extracted from the filename between the '@' and '.timer'": everything
after the first '@' of the name with the trailing ".timer" removed.
Written from the spec's words, for comparison with the code's
extraction. -/
def claimToken (n : Str) : Str :=
  let u := (n.dropWhile (fun c => decide (c ≠ '@'))).drop 1
  u.take (u.length - timerExt.length)

/-- Whether an optional proxy value is free of newline characters. -/
def noNl : Option Str → Bool
  | none => true
  | some u => !u.any (fun c => decide (c = '\n'))

/-- Head part of the wants-directory path up to the '@' of the worker
pattern: the full path of a worker timer file splits there first. -/
def wantsAtHead : Str :=
  chars "/etc/systemd/system/timers.target.wants/launchpad-retracer-worker"

/- Lemmas about the string primitives. -/

theorem pySplit_ne_nil (sep : Char) (l : Str) : pySplit sep l ≠ [] := by
  cases l with
  | nil => simp [pySplit]
  | cons c cs =>
    simp only [pySplit]
    cases h : pySplit sep cs with
    | nil => simp
    | cons r rs =>
      by_cases hc : c = sep <;> simp [hc]

theorem pySplit_no_sep {sep : Char} {l : Str} (h : sep ∉ l) : pySplit sep l = [l] := by
  induction l with
  | nil => simp [pySplit]
  | cons c cs ih =>
    have hc : c ≠ sep := fun hcc => h (hcc ▸ List.mem_cons_self c cs)
    have hcs : sep ∉ cs := fun hm => h (List.mem_cons_of_mem c hm)
    simp [pySplit, ih hcs, hc]

theorem pySplit_append {sep : Char} {l : Str} (ys : Str) (h : sep ∉ l) :
    pySplit sep (l ++ sep :: ys) = l :: pySplit sep ys := by
  induction l with
  | nil =>
    simp only [List.nil_append, pySplit]
    cases hy : pySplit sep ys with
    | nil => exact absurd hy (pySplit_ne_nil sep ys)
    | cons r rs => simp
  | cons c cs ih =>
    have hc : c ≠ sep := fun hcc => h (hcc ▸ List.mem_cons_self c cs)
    have hcs : sep ∉ cs := fun hm => h (List.mem_cons_of_mem c hm)
    simp only [List.cons_append, pySplit, List.append_eq]
    rw [ih hcs]
    simp [hc]

theorem cleanTok_iff {a : Str} :
    cleanTok a = true ↔ ∀ c ∈ a, c ≠ '.' ∧ c ≠ '@' ∧ c ≠ '/' := by
  unfold cleanTok
  simp [List.any_eq_false, not_or, and_assoc]

theorem wantsPath_workerTimerName (a : Str) :
    wantsPath ++ workerTimerName a = wantsAtHead ++ '@' :: (a ++ timerExt) := by
  have h1 : workerAt = chars "launchpad-retracer-worker" ++ ['@'] := by decide
  have h2 : wantsPath ++ chars "launchpad-retracer-worker" = wantsAtHead := by decide
  simp only [workerTimerName, h1, ← h2, List.append_assoc, List.singleton_append,
    List.cons_append, List.nil_append]

theorem extractToken_roundtrip {a : Str} (h : cleanTok a = true) :
    extractToken (wantsPath ++ workerTimerName a) = a := by
  have hclean := cleanTok_iff.mp h
  have hdot : ('.' : Char) ∉ a := fun hm => (hclean _ hm).1 rfl
  have hat : ('@' : Char) ∉ a := fun hm => (hclean _ hm).2.1 rfl
  have hat2 : ('@' : Char) ∉ a ++ timerExt := by
    intro hm
    rcases List.mem_append.mp hm with hm | hm
    · exact hat hm
    · revert hm; decide
  have hhead : ('@' : Char) ∉ wantsAtHead := by decide
  rw [extractToken, wantsPath_workerTimerName, pySplit_append _ hhead,
    pySplit_no_sep hat2]
  have htimer : (a ++ timerExt) = a ++ '.' :: chars "timer" := by
    have : timerExt = '.' :: chars "timer" := by decide
    rw [this]
  rw [List.getD_cons_succ, List.getD_cons_zero, htimer,
    pySplit_append _ hdot, List.getD_cons_zero]

/- Lemmas about the glob pattern and unit names. -/

theorem globMatch_decomp {n : Str} (h : globMatch n = true) :
    n = workerAt ++ globMid n ++ timerExt := by
  simp only [globMatch, Bool.and_eq_true, decide_eq_true_eq] at h
  obtain ⟨⟨⟨hlen, htake⟩, hdrop⟩, -⟩ := h
  have h1 : n = n.take workerAt.length ++ n.drop workerAt.length :=
    (List.take_append_drop _ n).symm
  have h2 : n.drop workerAt.length =
      (n.drop workerAt.length).take (n.length - workerAt.length - timerExt.length) ++
      (n.drop workerAt.length).drop (n.length - workerAt.length - timerExt.length) :=
    (List.take_append_drop _ _).symm
  have h3 : (n.drop workerAt.length).drop (n.length - workerAt.length - timerExt.length) =
      n.drop (n.length - timerExt.length) := by
    rw [List.drop_drop]
    congr 1
    omega
  have h4 : n.drop workerAt.length = globMid n ++ n.drop (n.length - timerExt.length) := by
    conv_lhs => rw [h2]
    rw [h3]
    rfl
  calc n = n.take workerAt.length ++ n.drop workerAt.length := h1
    _ = workerAt ++ (globMid n ++ n.drop (n.length - timerExt.length)) := by rw [htake, h4]
    _ = workerAt ++ globMid n ++ timerExt := by rw [hdrop, List.append_assoc]

theorem globMid_workerTimerName (a : Str) : globMid (workerTimerName a) = a := by
  have hlen : (workerTimerName a).length = workerAt.length + a.length + timerExt.length := by
    simp [workerTimerName, List.length_append]
    omega
  have h1 : workerTimerName a = workerAt ++ (a ++ timerExt) := by
    simp [workerTimerName, List.append_assoc]
  rw [globMid, hlen, h1, List.drop_left]
  have h2 : workerAt.length + a.length + timerExt.length - workerAt.length - timerExt.length
      = a.length := by omega
  rw [h2, List.take_left]

theorem globMatch_workerTimerName {a : Str} (h : ('/' : Char) ∉ a) :
    globMatch (workerTimerName a) = true := by
  have h1 : workerTimerName a = workerAt ++ (a ++ timerExt) := by
    simp [workerTimerName, List.append_assoc]
  have hlen : (workerTimerName a).length = workerAt.length + a.length + timerExt.length := by
    simp [workerTimerName, List.length_append]
    omega
  simp only [globMatch, Bool.and_eq_true, decide_eq_true_eq]
  refine ⟨⟨⟨by omega, ?_⟩, ?_⟩, ?_⟩
  · rw [h1, List.take_left]
  · have h2 : (workerTimerName a).length - timerExt.length =
        (workerAt ++ a).length := by
      simp only [List.length_append] at hlen ⊢
      omega
    rw [h2, workerTimerName, List.drop_left]
  · rw [globMid_workerTimerName]
    simp only [Bool.not_eq_true', List.any_eq_false]
    intro c hc
    intro hce
    exact h ((of_decide_eq_true hce) ▸ hc)

theorem workerTimerName_inj {a b : Str} (h : workerTimerName a = workerTimerName b) :
    a = b := by
  unfold workerTimerName at h
  exact List.append_cancel_left (List.append_cancel_right h)

theorem workerTimerName_ne_serviceName (a b : Str) :
    workerTimerName a ≠ workerServiceName b := by
  intro h
  have ht : (workerTimerName a).getLast? = timerExt.getLast? :=
    List.getLast?_append_of_ne_nil _ (by decide)
  have hs : (workerServiceName b).getLast? = serviceExt.getLast? :=
    List.getLast?_append_of_ne_nil _ (by decide)
  rw [h, hs] at ht
  revert ht
  decide

theorem workerAt_append_ne_dupTimerName (x : Str) : workerAt ++ x ≠ dupTimerName := by
  intro h
  have := congrArg (List.take workerAt.length) h
  rw [List.take_left] at this
  exact absurd this (by decide)

theorem workerTimerName_ne_dupTimerName (a : Str) : workerTimerName a ≠ dupTimerName := by
  have h1 : workerTimerName a = workerAt ++ (a ++ timerExt) := by
    simp [workerTimerName, List.append_assoc]
  rw [h1]
  exact workerAt_append_ne_dupTimerName _

theorem workerServiceName_ne_dupTimerName (a : Str) : workerServiceName a ≠ dupTimerName := by
  have h1 : workerServiceName a = workerAt ++ (a ++ serviceExt) := by
    simp [workerServiceName, List.append_assoc]
  rw [h1]
  exact workerAt_append_ne_dupTimerName _

theorem globMatch_dupTimerName : globMatch dupTimerName = false := by decide

/- Lemmas about the execution model. -/

theorem applyAll_cons (s : SysState) (c : SysCall) (cs : List SysCall) :
    applyAll s (c :: cs) = applyAll (applyCall s c) cs := rfl

theorem runSeq_all_ok {ora : Oracle} :
    ∀ (cs : List SysCall) (s : SysState), (∀ c ∈ cs, ora c = false) →
      runSeq ora s cs = ⟨true, applyAll s cs, cs.map Ev.call⟩ := by
  intro cs
  induction cs with
  | nil => intro s _; rfl
  | cons c cs ih =>
    intro s h
    have hc : ora c = false := h c (List.mem_cons_self c cs)
    have ihc := ih (applyCall s c) (fun d hd => h d (List.mem_cons_of_mem c hd))
    simp [runSeq, hc, ihc, applyAll_cons]

theorem runSeq_noFail (cs : List SysCall) (s : SysState) :
    runSeq noFail s cs = ⟨true, applyAll s cs, cs.map Ev.call⟩ :=
  @runSeq_all_ok noFail cs s (fun _ _ => rfl)

theorem mem_addIfAbsent {n m : Str} {l : List Str} :
    n ∈ addIfAbsent m l ↔ n = m ∨ n ∈ l := by
  unfold addIfAbsent
  by_cases h : m ∈ l
  · rw [if_pos h]
    exact ⟨Or.inr, fun hor => hor.elim (fun he => he ▸ h) id⟩
  · rw [if_neg h, List.mem_cons]

theorem main_wants (s : SysState) (pb : Str) (tm : Templates) :
    (applyAll s (mainCalls pb tm)).wantsDir = addIfAbsent dupTimerName s.wantsDir := rfl

theorem main_active (s : SysState) (pb : Str) (tm : Templates) :
    (applyAll s (mainCalls pb tm)).active = addIfAbsent dupTimerName s.active := rfl

theorem enable_wants_mem :
    ∀ (archs : List Str) (s : SysState) (n : Str),
      n ∈ (applyAll s (enableCalls archs)).wantsDir ↔
        n ∈ s.wantsDir ∨ ∃ a ∈ archs, n = workerTimerName a := by
  intro archs
  induction archs with
  | nil => intro s n; simp [enableCalls, applyAll]
  | cons a rest ih =>
    intro s n
    have hstep : enableCalls (a :: rest) =
        SysCall.enableNow (workerTimerName a) :: enableCalls rest := rfl
    rw [hstep, applyAll_cons, ih]
    have hwants : (applyCall s (.enableNow (workerTimerName a))).wantsDir =
        addIfAbsent (workerTimerName a) s.wantsDir := rfl
    rw [hwants, mem_addIfAbsent]
    simp only [List.mem_cons]
    constructor
    · rintro ((rfl | hn) | ⟨b, hb, rfl⟩)
      · exact Or.inr ⟨a, Or.inl rfl, rfl⟩
      · exact Or.inl hn
      · exact Or.inr ⟨b, Or.inr hb, rfl⟩
    · rintro (hn | ⟨b, (rfl | hb), rfl⟩)
      · exact Or.inl (Or.inr hn)
      · exact Or.inl (Or.inl rfl)
      · exact Or.inr ⟨b, hb, rfl⟩

theorem enable_active_mem :
    ∀ (archs : List Str) (s : SysState) (n : Str),
      n ∈ (applyAll s (enableCalls archs)).active ↔
        n ∈ s.active ∨ ∃ a ∈ archs, n = workerTimerName a := by
  intro archs
  induction archs with
  | nil => intro s n; simp [enableCalls, applyAll]
  | cons a rest ih =>
    intro s n
    have hstep : enableCalls (a :: rest) =
        SysCall.enableNow (workerTimerName a) :: enableCalls rest := rfl
    rw [hstep, applyAll_cons, ih]
    have hact : (applyCall s (.enableNow (workerTimerName a))).active =
        addIfAbsent (workerTimerName a) s.active := rfl
    rw [hact, mem_addIfAbsent]
    simp only [List.mem_cons]
    constructor
    · rintro ((rfl | hn) | ⟨b, hb, rfl⟩)
      · exact Or.inr ⟨a, Or.inl rfl, rfl⟩
      · exact Or.inl hn
      · exact Or.inr ⟨b, Or.inr hb, rfl⟩
    · rintro (hn | ⟨b, (rfl | hb), rfl⟩)
      · exact Or.inl (Or.inr hn)
      · exact Or.inl (Or.inl rfl)
      · exact Or.inr ⟨b, hb, rfl⟩

theorem enable_wants_noop :
    ∀ (archs : List Str) (s : SysState), (∀ a ∈ archs, workerTimerName a ∈ s.wantsDir) →
      (applyAll s (enableCalls archs)).wantsDir = s.wantsDir := by
  intro archs
  induction archs with
  | nil => intro s _; rfl
  | cons a rest ih =>
    intro s h
    have hstep : enableCalls (a :: rest) =
        SysCall.enableNow (workerTimerName a) :: enableCalls rest := rfl
    rw [hstep, applyAll_cons]
    have ha : workerTimerName a ∈ s.wantsDir := h a (List.mem_cons_self a rest)
    have hwants : (applyCall s (.enableNow (workerTimerName a))).wantsDir = s.wantsDir := by
      show addIfAbsent (workerTimerName a) s.wantsDir = s.wantsDir
      unfold addIfAbsent
      rw [if_pos ha]
    rw [ih _ (fun b hb => by rw [hwants]; exact h b (List.mem_cons_of_mem a hb)), hwants]

theorem bestEffort_noFail :
    ∀ (cs : List SysCall) (arch : Str) (s : SysState),
      runCallsBestEffort noFail arch s cs = (applyAll s cs, cs.map Ev.call) := by
  intro cs
  induction cs with
  | nil => intro arch s; rfl
  | cons c cs ih =>
    intro arch s
    simp [runCallsBestEffort, noFail, ih, applyAll_cons]

theorem bestEffort_trace (ora : Oracle) :
    ∀ (cs : List SysCall) (arch : Str) (s : SysState),
      (runCallsBestEffort ora arch s cs).2 = attemptTrace ora arch cs := by
  intro cs
  induction cs with
  | nil => intro arch s; rfl
  | cons c cs ih =>
    intro arch s
    by_cases hc : ora c = true
    · simp [runCallsBestEffort, attemptTrace, hc]
    · simp only [Bool.not_eq_true] at hc
      simp [runCallsBestEffort, attemptTrace, hc, ih]

theorem retire_one_wants (b : Str) (s : SysState) :
    (applyAll s (retireCalls b)).wantsDir =
      s.wantsDir.filter (fun n => decide (n ≠ workerTimerName b)) := rfl

theorem retire_one_active (b : Str) (s : SysState) :
    (applyAll s (retireCalls b)).active =
      (s.active.filter (fun n => decide (n ≠ workerTimerName b))).filter
        (fun n => decide (n ≠ workerServiceName b)) := rfl

theorem runRetirements_trace (ora : Oracle) (archs : List Str) :
    ∀ (cur : List Str) (s : SysState),
      (runRetirements ora archs cur s).2 =
        (cur.filter (fun b => !decide (b ∈ archs))).flatMap
          (fun b => attemptTrace ora b (retireCalls b)) := by
  intro cur
  induction cur with
  | nil => intro s; rfl
  | cons b rest ih =>
    intro s
    by_cases hb : b ∈ archs
    · simp [runRetirements, hb, ih, List.filter_cons]
    · simp [runRetirements, hb, ih, List.filter_cons, bestEffort_trace]

theorem runRetirements_noop (ora : Oracle) (archs : List Str) :
    ∀ (cur : List Str) (s : SysState), (∀ b ∈ cur, b ∈ archs) →
      runRetirements ora archs cur s = (s, []) := by
  intro cur
  induction cur with
  | nil => intro s _; rfl
  | cons b rest ih =>
    intro s h
    have hb : b ∈ archs := h b (List.mem_cons_self b rest)
    simp only [runRetirements, if_pos hb]
    exact ih s (fun d hd => h d (List.mem_cons_of_mem b hd))

theorem runRetirements_wants_sub (archs : List Str) :
    ∀ (cur : List Str) (s : SysState),
      (runRetirements noFail archs cur s).1.wantsDir ⊆ s.wantsDir := by
  intro cur
  induction cur with
  | nil => intro s x hx; exact hx
  | cons b rest ih =>
    intro s
    by_cases hb : b ∈ archs
    · simpa [runRetirements, hb] using ih s
    · intro x hx
      simp only [runRetirements, if_neg hb] at hx
      have h1 := ih _ hx
      rw [bestEffort_noFail, retire_one_wants] at h1
      exact List.filter_subset' _ h1

theorem runRetirements_wants_pres (archs : List Str) :
    ∀ (cur : List Str) (s : SysState) (n : Str), n ∈ s.wantsDir →
      (∀ b ∈ cur, b ∉ archs → n ≠ workerTimerName b) →
      n ∈ (runRetirements noFail archs cur s).1.wantsDir := by
  intro cur
  induction cur with
  | nil => intro s n hn _; exact hn
  | cons b rest ih =>
    intro s n hn h
    by_cases hb : b ∈ archs
    · simp only [runRetirements, if_pos hb]
      exact ih s n hn (fun d hd => h d (List.mem_cons_of_mem b hd))
    · simp only [runRetirements, if_neg hb]
      refine ih _ n ?_ (fun d hd => h d (List.mem_cons_of_mem b hd))
      rw [bestEffort_noFail, retire_one_wants]
      exact List.mem_filter.mpr ⟨hn, decide_eq_true (h b (List.mem_cons_self b rest) hb)⟩

theorem runRetirements_wants_removed (archs : List Str) :
    ∀ (cur : List Str) (s : SysState) (b : Str), b ∈ cur → b ∉ archs →
      workerTimerName b ∉ (runRetirements noFail archs cur s).1.wantsDir := by
  intro cur
  induction cur with
  | nil => intro s b hb _; exact absurd hb (List.not_mem_nil b)
  | cons b' rest ih =>
    intro s b hb hnb
    rcases List.mem_cons.mp hb with rfl | hbr
    · simp only [runRetirements, if_neg hnb]
      intro hmem
      have h1 := runRetirements_wants_sub archs rest _ hmem
      rw [bestEffort_noFail, retire_one_wants] at h1
      have h2 := (List.mem_filter.mp h1).2
      exact absurd rfl (of_decide_eq_true h2)
    · by_cases hb' : b' ∈ archs
      · simp only [runRetirements, if_pos hb']
        exact ih _ b hbr hnb
      · simp only [runRetirements, if_neg hb']
        exact ih _ b hbr hnb

theorem runRetirements_active_pres (archs : List Str) :
    ∀ (cur : List Str) (s : SysState) (n : Str), n ∈ s.active →
      (∀ b ∈ cur, b ∉ archs →
        n ≠ workerTimerName b ∧ n ≠ workerServiceName b) →
      n ∈ (runRetirements noFail archs cur s).1.active := by
  intro cur
  induction cur with
  | nil => intro s n hn _; exact hn
  | cons b rest ih =>
    intro s n hn h
    by_cases hb : b ∈ archs
    · simp only [runRetirements, if_pos hb]
      exact ih s n hn (fun d hd => h d (List.mem_cons_of_mem b hd))
    · simp only [runRetirements, if_neg hb]
      refine ih _ n ?_ (fun d hd => h d (List.mem_cons_of_mem b hd))
      rw [bestEffort_noFail, retire_one_active]
      have hne := h b (List.mem_cons_self b rest) hb
      exact List.mem_filter.mpr
        ⟨List.mem_filter.mpr ⟨hn, decide_eq_true hne.1⟩, decide_eq_true hne.2⟩

theorem currentArchs_token_mem {s : SysState} {n : Str}
    (hn : n ∈ s.wantsDir) (hg : globMatch n = true) :
    extractToken (wantsPath ++ n) ∈ currentArchs s :=
  List.mem_map_of_mem _ (List.mem_filter.mpr ⟨hn, hg⟩)

theorem currentArchs_main (s : SysState) (pb : Str) (tm : Templates) :
    currentArchs (applyAll s (mainCalls pb tm)) = currentArchs s := by
  unfold currentArchs
  rw [main_wants]
  unfold addIfAbsent
  by_cases h : dupTimerName ∈ s.wantsDir
  · rw [if_pos h]
  · rw [if_neg h, List.filter_cons]
    simp [globMatch_dupTimerName]

theorem setup_noFail_eq (tm : Templates) (ps : List (Str × Str)) (archs : List Str)
    (s : SysState) :
    setupSystemdUnits noFail tm ps archs s =
      ⟨true,
       (runRetirements noFail archs (currentArchs s)
         (applyAll (applyAll s (mainCalls (proxyBlock ps) tm)) (enableCalls archs))).1,
       (mainCalls (proxyBlock ps) tm).map Ev.call ++ ((enableCalls archs).map Ev.call ++
       (runRetirements noFail archs (currentArchs s)
         (applyAll (applyAll s (mainCalls (proxyBlock ps) tm)) (enableCalls archs))).2)⟩ := by
  unfold setupSystemdUnits
  simp only [runSeq_noFail, currentArchs_main]
  simp [List.append_assoc]

/-- Combined effect of a fully successful reconciliation run: it succeeds,
every desired architecture's timer ends up linked and running, every
glob-matching wants entry belongs to a desired architecture, and the
dupcheck timer stays enabled and running. -/
theorem setup_noFail_core (tm : Templates) (ps : List (Str × Str)) (archs : List Str)
    (s : SysState)
    (hclean : ∀ a ∈ archs, cleanTok a = true)
    (hlive : ∀ n ∈ s.wantsDir, globMatch n = true → cleanTok (globMid n) = true) :
    (setupSystemdUnits noFail tm ps archs s).ok = true ∧
    (∀ a ∈ archs,
      workerTimerName a ∈ (setupSystemdUnits noFail tm ps archs s).state.wantsDir ∧
      workerTimerName a ∈ (setupSystemdUnits noFail tm ps archs s).state.active) ∧
    (∀ n ∈ (setupSystemdUnits noFail tm ps archs s).state.wantsDir,
      globMatch n = true → ∃ a ∈ archs, n = workerTimerName a) ∧
    dupTimerName ∈ (setupSystemdUnits noFail tm ps archs s).state.wantsDir ∧
    dupTimerName ∈ (setupSystemdUnits noFail tm ps archs s).state.active := by
  rw [setup_noFail_eq]
  refine ⟨rfl, ?_, ?_, ?_, ?_⟩
  · intro a ha
    have h2 : workerTimerName a ∈
        (applyAll (applyAll s (mainCalls (proxyBlock ps) tm)) (enableCalls archs)).wantsDir :=
      (enable_wants_mem archs _ _).mpr (Or.inr ⟨a, ha, rfl⟩)
    have h2a : workerTimerName a ∈
        (applyAll (applyAll s (mainCalls (proxyBlock ps) tm)) (enableCalls archs)).active :=
      (enable_active_mem archs _ _).mpr (Or.inr ⟨a, ha, rfl⟩)
    constructor
    · apply runRetirements_wants_pres archs (currentArchs s) _ _ h2
      intro b _ hbn he
      exact hbn (workerTimerName_inj he ▸ ha)
    · apply runRetirements_active_pres archs (currentArchs s) _ _ h2a
      intro b _ hbn
      exact ⟨fun he => hbn (workerTimerName_inj he ▸ ha),
        workerTimerName_ne_serviceName a b⟩
  · intro n hn hg
    have hn2 := runRetirements_wants_sub archs (currentArchs s) _ hn
    rcases (enable_wants_mem archs _ n).mp hn2 with hn1 | ⟨a, ha, rfl⟩
    · rw [main_wants] at hn1
      rcases mem_addIfAbsent.mp hn1 with rfl | hn0
      · rw [globMatch_dupTimerName] at hg
        exact absurd hg (by decide)
      · have hmid := hlive n hn0 hg
        have hnb : n = workerTimerName (globMid n) := by
          rw [workerTimerName]
          exact globMatch_decomp hg
        have htok : extractToken (wantsPath ++ n) = globMid n := by
          conv_lhs => rw [hnb]
          exact extractToken_roundtrip hmid
        have hcur : globMid n ∈ currentArchs s := htok ▸ currentArchs_token_mem hn0 hg
        by_cases hba : globMid n ∈ archs
        · exact ⟨globMid n, hba, hnb⟩
        · exfalso
          have hrem := runRetirements_wants_removed archs (currentArchs s)
            (applyAll (applyAll s (mainCalls (proxyBlock ps) tm)) (enableCalls archs))
            (globMid n) hcur hba
          rw [← hnb] at hrem
          exact hrem hn
    · exact ⟨a, ha, rfl⟩
  · apply runRetirements_wants_pres archs (currentArchs s)
    · exact (enable_wants_mem archs _ _).mpr
        (Or.inl (by rw [main_wants]; exact mem_addIfAbsent.mpr (Or.inl rfl)))
    · intro b _ _ he
      exact workerTimerName_ne_dupTimerName b he.symm
  · apply runRetirements_active_pres archs (currentArchs s)
    · exact (enable_active_mem archs _ _).mpr
        (Or.inl (by rw [main_active]; exact mem_addIfAbsent.mpr (Or.inl rfl)))
    · intro b _ _
      exact ⟨fun he => workerTimerName_ne_dupTimerName b he.symm,
        fun he => workerServiceName_ne_dupTimerName b he.symm⟩

/-- C1: For every non-empty desired architecture list (of well-formed
architecture tokens), starting from a host whose glob-matching enabled
worker timers are well-formed worker timer names, a successful run of
_setup_systemd_units leaves the enabled worker-timer set exactly equal to
the desired set: every desired architecture's timer is linked in
timers.target.wants and running, and every enabled timer matching the
worker pattern belongs to a desired architecture. -/
theorem C1_reconciliation_exact_set (tm : Templates) (ps : List (Str × Str))
    (archs : List Str) (s : SysState)
    (hne : archs ≠ [])
    (hclean : ∀ a ∈ archs, cleanTok a = true)
    (hlive : ∀ n ∈ s.wantsDir, globMatch n = true → cleanTok (globMid n) = true) :
    (setupSystemdUnits noFail tm ps archs s).ok = true ∧
    (∀ a ∈ archs,
      workerTimerName a ∈ (setupSystemdUnits noFail tm ps archs s).state.wantsDir ∧
      workerTimerName a ∈ (setupSystemdUnits noFail tm ps archs s).state.active) ∧
    (∀ n ∈ (setupSystemdUnits noFail tm ps archs s).state.wantsDir,
      globMatch n = true → ∃ a ∈ archs, n = workerTimerName a) := by
  have h := setup_noFail_core tm ps archs s hclean hlive
  exact ⟨h.1, h.2.1, h.2.2.1⟩

/-- Witness for C1 at a concrete input: desired = [amd64] with a live
arm64 worker timer. -/
theorem C1_witness :
    ([chars "amd64"] : List Str) ≠ [] ∧
    (setupSystemdUnits noFail ⟨chars "DS", chars "DT", chars "WS", chars "WT"⟩ []
      [chars "amd64"]
      ⟨[], [chars "launchpad-retracer-worker@arm64.timer"], []⟩).ok = true ∧
    (∀ a ∈ ([chars "amd64"] : List Str),
      workerTimerName a ∈ (setupSystemdUnits noFail
        ⟨chars "DS", chars "DT", chars "WS", chars "WT"⟩ [] [chars "amd64"]
        ⟨[], [chars "launchpad-retracer-worker@arm64.timer"], []⟩).state.wantsDir ∧
      workerTimerName a ∈ (setupSystemdUnits noFail
        ⟨chars "DS", chars "DT", chars "WS", chars "WT"⟩ [] [chars "amd64"]
        ⟨[], [chars "launchpad-retracer-worker@arm64.timer"], []⟩).state.active) ∧
    (∀ n ∈ (setupSystemdUnits noFail
        ⟨chars "DS", chars "DT", chars "WS", chars "WT"⟩ [] [chars "amd64"]
        ⟨[], [chars "launchpad-retracer-worker@arm64.timer"], []⟩).state.wantsDir,
      globMatch n = true → ∃ a ∈ ([chars "amd64"] : List Str), n = workerTimerName a) :=
  ⟨by decide,
   C1_reconciliation_exact_set ⟨chars "DS", chars "DT", chars "WS", chars "WT"⟩ []
     [chars "amd64"] ⟨[], [chars "launchpad-retracer-worker@arm64.timer"], []⟩
     (by decide) (by decide) (by decide)⟩

/-- C2: Reconciliation is idempotent: rerunning _setup_systemd_units with
the same desired list from the state a successful run left behind
succeeds again, leaves the enabled-timer directory exactly as it was, and
performs no retirement work at all (no stop, disable or delete call and
no retirement warning in the second trace). -/
theorem C2_reconciliation_idempotent (tm : Templates) (ps : List (Str × Str))
    (archs : List Str) (s : SysState)
    (hne : archs ≠ [])
    (hclean : ∀ a ∈ archs, cleanTok a = true)
    (hlive : ∀ n ∈ s.wantsDir, globMatch n = true → cleanTok (globMid n) = true) :
    (setupSystemdUnits noFail tm ps archs
        (setupSystemdUnits noFail tm ps archs s).state).ok = true ∧
    (setupSystemdUnits noFail tm ps archs
        (setupSystemdUnits noFail tm ps archs s).state).state.wantsDir =
      (setupSystemdUnits noFail tm ps archs s).state.wantsDir ∧
    (∀ e ∈ (setupSystemdUnits noFail tm ps archs
        (setupSystemdUnits noFail tm ps archs s).state).trace,
      isRetireEv e = false) := by
  obtain ⟨-, hP2, hP1, hP3w, -⟩ := setup_noFail_core tm ps archs s hclean hlive
  set t := (setupSystemdUnits noFail tm ps archs s).state with ht
  have hcur : ∀ b ∈ currentArchs t, b ∈ archs := by
    intro b hb
    rcases List.mem_map.mp hb with ⟨n, hnf, hfb⟩
    rcases List.mem_filter.mp hnf with ⟨hn, hg⟩
    obtain ⟨a, ha, rfl⟩ := hP1 n hn hg
    rw [← hfb, extractToken_roundtrip (hclean a ha)]
    exact ha
  have hmw : (applyAll t (mainCalls (proxyBlock ps) tm)).wantsDir = t.wantsDir := by
    rw [main_wants]
    unfold addIfAbsent
    rw [if_pos hP3w]
  have hen : (applyAll (applyAll t (mainCalls (proxyBlock ps) tm))
      (enableCalls archs)).wantsDir = t.wantsDir := by
    rw [enable_wants_noop archs _ (fun a ha => by rw [hmw]; exact (hP2 a ha).1), hmw]
  rw [setup_noFail_eq tm ps archs t,
    runRetirements_noop noFail archs (currentArchs t)
      (applyAll (applyAll t (mainCalls (proxyBlock ps) tm)) (enableCalls archs)) hcur]
  refine ⟨rfl, hen, ?_⟩
  intro e he
  simp only [List.append_nil] at he
  rcases List.mem_append.mp he with hm | hm2
  · rcases List.mem_map.mp hm with ⟨c, hc, rfl⟩
    simp only [mainCalls, List.mem_cons, List.not_mem_nil, or_false] at hc
    rcases hc with rfl | rfl | rfl | rfl | rfl | rfl <;> rfl
  · rcases List.mem_map.mp hm2 with ⟨c, hc, rfl⟩
    unfold enableCalls at hc
    rcases List.mem_map.mp hc with ⟨a, -, rfl⟩
    rfl

/-- Witness for C2 at a concrete input: desired = [amd64] with a live
arm64 worker timer; the second run changes nothing and retires nothing. -/
theorem C2_witness :
    (setupSystemdUnits noFail ⟨chars "DS", chars "DT", chars "WS", chars "WT"⟩ []
        [chars "amd64"]
        (setupSystemdUnits noFail ⟨chars "DS", chars "DT", chars "WS", chars "WT"⟩ []
          [chars "amd64"]
          ⟨[], [chars "launchpad-retracer-worker@arm64.timer"], []⟩).state).ok = true ∧
    (setupSystemdUnits noFail ⟨chars "DS", chars "DT", chars "WS", chars "WT"⟩ []
        [chars "amd64"]
        (setupSystemdUnits noFail ⟨chars "DS", chars "DT", chars "WS", chars "WT"⟩ []
          [chars "amd64"]
          ⟨[], [chars "launchpad-retracer-worker@arm64.timer"], []⟩).state).state.wantsDir =
      (setupSystemdUnits noFail ⟨chars "DS", chars "DT", chars "WS", chars "WT"⟩ []
        [chars "amd64"]
        ⟨[], [chars "launchpad-retracer-worker@arm64.timer"], []⟩).state.wantsDir ∧
    (∀ e ∈ (setupSystemdUnits noFail ⟨chars "DS", chars "DT", chars "WS", chars "WT"⟩ []
        [chars "amd64"]
        (setupSystemdUnits noFail ⟨chars "DS", chars "DT", chars "WS", chars "WT"⟩ []
          [chars "amd64"]
          ⟨[], [chars "launchpad-retracer-worker@arm64.timer"], []⟩).state).trace,
      isRetireEv e = false) :=
  C2_reconciliation_idempotent ⟨chars "DS", chars "DT", chars "WS", chars "WT"⟩ []
    [chars "amd64"] ⟨[], [chars "launchpad-retracer-worker@arm64.timer"], []⟩
    (by decide) (by decide) (by decide)

theorem setup_trace_eq (ora : Oracle) (tm : Templates) (ps : List (Str × Str))
    (archs : List Str) (s : SysState)
    (hmain : ∀ c ∈ mainCalls (proxyBlock ps) tm, ora c = false)
    (hen : ∀ c ∈ enableCalls archs, ora c = false) :
    setupSystemdUnits ora tm ps archs s =
      ⟨true,
       (runRetirements ora archs (currentArchs s)
         (applyAll (applyAll s (mainCalls (proxyBlock ps) tm)) (enableCalls archs))).1,
       (mainCalls (proxyBlock ps) tm).map Ev.call ++ ((enableCalls archs).map Ev.call ++
       (runRetirements ora archs (currentArchs s)
         (applyAll (applyAll s (mainCalls (proxyBlock ps) tm)) (enableCalls archs))).2)⟩ := by
  have h2 : ∀ st, runSeq ora st (enableCalls archs) =
      ⟨true, applyAll st (enableCalls archs), (enableCalls archs).map Ev.call⟩ :=
    fun st => runSeq_all_ok _ st hen
  unfold setupSystemdUnits
  simp only [runSeq_all_ok _ s hmain, h2, currentArchs_main]
  simp [List.append_assoc]

theorem attemptTrace_all_ok (ora : Oracle) (arch : Str) :
    ∀ cs : List SysCall, (∀ c ∈ cs, ora c = false) →
      attemptTrace ora arch cs = cs.map Ev.call := by
  intro cs
  induction cs with
  | nil => intro _; rfl
  | cons c cs ih =>
    intro h
    have hc : ora c = false := h c (List.mem_cons_self c cs)
    simp [attemptTrace, hc, ih (fun d hd => h d (List.mem_cons_of_mem c hd))]

theorem attemptTrace_fail_at (ora : Oracle) (arch : Str) :
    ∀ (cs : List SysCall) (k : Nat), k < cs.length →
      (∀ j, j < k → ora (cs.getD j .daemonReload) = false) →
      ora (cs.getD k .daemonReload) = true →
      attemptTrace ora arch cs = (cs.take (k + 1)).map Ev.call ++ [Ev.warn arch] := by
  intro cs
  induction cs with
  | nil => intro k hk; exact absurd hk (Nat.not_lt_zero k)
  | cons c cs ih =>
    intro k hk hprev hfail
    cases k with
    | zero =>
      have hc : ora c = true := hfail
      simp [attemptTrace, hc]
    | succ k' =>
      have hc : ora c = false := hprev 0 (Nat.succ_pos k')
      have hrec := ih k' (by simpa using hk)
        (fun j hj => hprev (j + 1) (by omega)) hfail
      simp [attemptTrace, hc, hrec]

/-- C3: In a reconciliation run whose unconditional writes, dupcheck
enable, daemon reload and per-architecture enables all succeed, every
live architecture outside the desired list is retired independently: the
run returns successfully whatever the retirement calls do, its trace ends
with one segment per retired architecture, a fully successful segment is
exactly the five calls stop timer, stop service, disable timer, delete
timer file, delete service file in that order, and a segment whose k-th
call fails consists of the calls up to and including the failing one
followed by the logged warning, leaving the remaining architectures'
segments untouched. -/
theorem C3_retirement_best_effort (ora : Oracle) (tm : Templates)
    (ps : List (Str × Str)) (archs : List Str) (s : SysState)
    (hmain : ∀ c ∈ mainCalls (proxyBlock ps) tm, ora c = false)
    (hen : ∀ a ∈ archs, ora (.enableNow (workerTimerName a)) = false) :
    (setupSystemdUnits ora tm ps archs s).ok = true ∧
    (setupSystemdUnits ora tm ps archs s).trace =
      (mainCalls (proxyBlock ps) tm).map Ev.call ++
      ((enableCalls archs).map Ev.call ++
        ((currentArchs s).filter (fun b => !decide (b ∈ archs))).flatMap
          (fun b => attemptTrace ora b (retireCalls b))) ∧
    (∀ b ∈ (currentArchs s).filter (fun b => !decide (b ∈ archs)),
      (∀ c ∈ retireCalls b, ora c = false) →
        attemptTrace ora b (retireCalls b) = (retireCalls b).map Ev.call) ∧
    (∀ b ∈ (currentArchs s).filter (fun b => !decide (b ∈ archs)),
      ∀ k, k < (retireCalls b).length →
        (∀ j, j < k → ora ((retireCalls b).getD j .daemonReload) = false) →
        ora ((retireCalls b).getD k .daemonReload) = true →
        attemptTrace ora b (retireCalls b) =
          ((retireCalls b).take (k + 1)).map Ev.call ++ [Ev.warn b]) := by
  have hen' : ∀ c ∈ enableCalls archs, ora c = false := by
    intro c hc
    rcases List.mem_map.mp hc with ⟨a, ha, rfl⟩
    exact hen a ha
  rw [setup_trace_eq ora tm ps archs s hmain hen']
  refine ⟨rfl, ?_, ?_, ?_⟩
  · rw [runRetirements_trace]
  · intro b _ h
    exact attemptTrace_all_ok ora b (retireCalls b) h
  · intro b _ k hk hprev hfail
    exact attemptTrace_fail_at ora b (retireCalls b) k hk hprev hfail

/-- Witness for C3 at a concrete input: desired = [amd64], live = [arm64,
s390x], and an injected failure of the disable call of arm64's
retirement; the run still succeeds and s390x is still fully retired. -/
theorem C3_witness :
    let ora : Oracle :=
      fun c => decide (c = SysCall.disableUnit (workerTimerName (chars "arm64")))
    let tm : Templates := ⟨chars "DS", chars "DT", chars "WS", chars "WT"⟩
    let s : SysState :=
      ⟨[], [chars "launchpad-retracer-worker@arm64.timer",
            chars "launchpad-retracer-worker@s390x.timer"], []⟩
    (setupSystemdUnits ora tm [] [chars "amd64"] s).ok = true ∧
    (setupSystemdUnits ora tm [] [chars "amd64"] s).trace =
      (mainCalls (proxyBlock []) tm).map Ev.call ++
      ((enableCalls [chars "amd64"]).map Ev.call ++
        ((currentArchs s).filter (fun b => !decide (b ∈ [chars "amd64"]))).flatMap
          (fun b => attemptTrace ora b (retireCalls b))) ∧
    (∀ b ∈ (currentArchs s).filter (fun b => !decide (b ∈ [chars "amd64"])),
      (∀ c ∈ retireCalls b, ora c = false) →
        attemptTrace ora b (retireCalls b) = (retireCalls b).map Ev.call) ∧
    (∀ b ∈ (currentArchs s).filter (fun b => !decide (b ∈ [chars "amd64"])),
      ∀ k, k < (retireCalls b).length →
        (∀ j, j < k → ora ((retireCalls b).getD j .daemonReload) = false) →
        ora ((retireCalls b).getD k .daemonReload) = true →
        attemptTrace ora b (retireCalls b) =
          ((retireCalls b).take (k + 1)).map Ev.call ++ [Ev.warn b]) :=
  C3_retirement_best_effort
    (fun c => decide (c = SysCall.disableUnit (workerTimerName (chars "arm64"))))
    ⟨chars "DS", chars "DT", chars "WS", chars "WT"⟩ [] [chars "amd64"]
    ⟨[], [chars "launchpad-retracer-worker@arm64.timer",
          chars "launchpad-retracer-worker@s390x.timer"], []⟩
    (by decide) (by decide)

theorem foldl_append_acc {α β : Type} (g : β → List α) :
    ∀ (l : List β) (acc : List α),
      l.foldl (fun a p => a ++ g p) acc = acc ++ l.flatMap g := by
  intro l
  induction l with
  | nil => intro acc; simp
  | cons p l ih =>
    intro acc
    simp [List.foldl_cons, ih, List.flatMap_cons, List.append_assoc]

theorem proxyBlock_flat (ps : List (Str × Str)) :
    proxyBlock ps = (proxyLines ps).flatMap (fun l => '\n' :: l) := by
  unfold proxyBlock proxyLines
  rw [foldl_append_acc]
  simp only [List.nil_append]
  induction ps with
  | nil => rfl
  | cons p rest ih =>
    have hnl : chars "\nEnvironment=" = '\n' :: chars "Environment=" := by decide
    simp only [List.flatMap_cons, List.flatMap_append, List.flatMap_nil,
      List.append_nil, List.append_assoc] at ih ⊢
    rw [ih]
    simp [envKeyLine, hnl, List.append_assoc]

theorem pySplit_join (sep : Char) :
    ∀ (lines : List Str) (l0 : Str), sep ∉ l0 → (∀ l ∈ lines, sep ∉ l) →
      pySplit sep (l0 ++ lines.flatMap (fun l => sep :: l)) = l0 :: lines := by
  intro lines
  induction lines with
  | nil =>
    intro l0 h0 _
    simp [pySplit_no_sep h0]
  | cons l ls ih =>
    intro l0 h0 h
    have hstep : l0 ++ ((l :: ls).flatMap (fun l => sep :: l)) =
        l0 ++ sep :: (l ++ ls.flatMap (fun l => sep :: l)) := by
      simp [List.flatMap_cons]
    rw [hstep, pySplit_append _ h0,
      ih l (h l (List.mem_cons_self l ls)) (fun d hd => h d (List.mem_cons_of_mem l hd))]

/-- C5 (corrected claim, counterexample part): with an HTTP proxy
configured, the rendered block's second line carries the key HTTP_proxy
(only the protocol is uppercased); the fully upper-case key HTTP_PROXY
claimed by the specification never appears. -/
theorem C5_proxy_counterexample :
    proxyBlock (initProxies (some (chars "u")) none) =
      chars "\nEnvironment=http_proxy=u\nEnvironment=HTTP_proxy=u" ∧
    strHasSub (chars "HTTP_PROXY") (proxyBlock (initProxies (some (chars "u")) none)) =
      false ∧
    strHasSub (chars "HTTP_proxy") (proxyBlock (initProxies (some (chars "u")) none)) =
      true := by decide

/-- C5 (amended): for every combination of configured proxy values (zero,
one or two of HTTP/HTTPS) whose URLs contain no newline, the rendered
block splits on newlines into one empty lead piece followed by exactly
two Environment lines per configured protocol: one whose key is the
protocol followed by "_proxy", and one whose key is the uppercased
protocol followed by (lower-case) "_proxy", each set to the configured
URL. -/
theorem C5_proxy_env_lines (httpVal httpsVal : Option Str)
    (h1 : noNl httpVal = true) (h2 : noNl httpsVal = true) :
    pySplit '\n' (proxyBlock (initProxies httpVal httpsVal)) =
      [] :: proxyLines (initProxies httpVal httpsVal) := by
  have hurl : ∀ (v : Option Str), noNl v = true → ('\n' : Char) ∉ v.getD [] := by
    intro v hv
    cases v with
    | none => simp
    | some u =>
      simp only [noNl, Bool.not_eq_true', List.any_eq_false] at hv
      intro hm
      exact absurd (hv '\n' hm) (by simp)
  have hline : ∀ (key url : Str), ('\n' : Char) ∉ key → ('\n' : Char) ∉ url →
      ('\n' : Char) ∉ envKeyLine key url := by
    intro key url hk hu hm
    unfold envKeyLine at hm
    rcases List.mem_append.mp hm with hm | hm
    · rcases List.mem_append.mp hm with hm | hm
      · rcases List.mem_append.mp hm with hm | hm
        · revert hm; decide
        · exact hk hm
      · revert hm; decide
    · exact hu hm
  have hkeys : ∀ l ∈ proxyLines (initProxies httpVal httpsVal), ('\n' : Char) ∉ l := by
    intro l hl
    unfold proxyLines initProxies at hl
    rcases List.mem_flatMap.mp hl with ⟨p, hp, hpl⟩
    rcases List.mem_append.mp hp with hp | hp
    · by_cases ht : pyTruthy httpVal = true
      · rw [if_pos ht] at hp
        have hpe := List.mem_singleton.mp hp
        subst hpe
        simp only [List.mem_cons, List.not_mem_nil, or_false] at hpl
        rcases hpl with rfl | rfl
        · exact hline _ _ (by decide) (hurl httpVal h1)
        · exact hline _ _ (by decide) (hurl httpVal h1)
      · rw [if_neg ht] at hp
        exact absurd hp (List.not_mem_nil p)
    · by_cases ht : pyTruthy httpsVal = true
      · rw [if_pos ht] at hp
        have hpe := List.mem_singleton.mp hp
        subst hpe
        simp only [List.mem_cons, List.not_mem_nil, or_false] at hpl
        rcases hpl with rfl | rfl
        · exact hline _ _ (by decide) (hurl httpsVal h2)
        · exact hline _ _ (by decide) (hurl httpsVal h2)
      · rw [if_neg ht] at hp
        exact absurd hp (List.not_mem_nil p)
  rw [proxyBlock_flat]
  have := pySplit_join '\n' (proxyLines (initProxies httpVal httpsVal)) [] (by simp) hkeys
  simpa using this

/-- Witness for C5 at a concrete input: HTTP proxy "u" configured, HTTPS
unset. -/
theorem C5_witness :
    noNl (some (chars "u")) = true ∧
    pySplit '\n' (proxyBlock (initProxies (some (chars "u")) none)) =
      [] :: proxyLines (initProxies (some (chars "u")) none) :=
  ⟨by decide, C5_proxy_env_lines (some (chars "u")) none (by decide) (by decide)⟩

theorem writesOf_append (t1 t2 : List Ev) :
    writesOf (t1 ++ t2) = writesOf t1 ++ writesOf t2 :=
  List.filterMap_append t1 t2 _

theorem writesOf_enable (archs : List Str) :
    writesOf ((enableCalls archs).map Ev.call) = [] := by
  induction archs with
  | nil => rfl
  | cons a rest ih =>
    show writesOf (Ev.call (.enableNow (workerTimerName a)) ::
      (enableCalls rest).map Ev.call) = []
    simpa [writesOf, List.filterMap_cons] using ih

theorem writesOf_retire_seg (ora : Oracle) (b : Str) :
    writesOf (attemptTrace ora b (retireCalls b)) = [] := by
  simp only [retireCalls, attemptTrace]
  split_ifs <;> rfl

theorem writesOf_retire_flat (ora : Oracle) :
    ∀ l : List Str,
      writesOf (l.flatMap (fun b => attemptTrace ora b (retireCalls b))) = [] := by
  intro l
  induction l with
  | nil => rfl
  | cons b rest ih =>
    rw [List.flatMap_cons, writesOf_append, writesOf_retire_seg, ih]
    rfl

/-- C6 (corrected claim, counterexample part): on a run with an HTTP proxy
configured, the dupcheck timer file and the worker timer template are
written with the bare template text, not with the proxy block appended:
the proxy block goes only into the two service files. -/
theorem C6_unit_writes_counterexample :
    let tm : Templates := ⟨chars "DS", chars "DT", chars "WS", chars "WT"⟩
    let ps : List (Str × Str) := [(chars "http", chars "u")]
    let r := setupSystemdUnits noFail tm ps [chars "amd64"] ⟨[], [], []⟩
    (dupTimerName, tm.dupTimer) ∈ writesOf r.trace ∧
    (dupTimerName, tm.dupTimer ++ proxyBlock ps) ∉ writesOf r.trace ∧
    (workerTimerTemplateName, tm.workerTimer) ∈ writesOf r.trace ∧
    (workerTimerTemplateName, tm.workerTimer ++ proxyBlock ps) ∉ writesOf r.trace ∧
    (dupServiceName, tm.dupService ++ proxyBlock ps) ∈ writesOf r.trace := by
  decide

/-- C6 (amended): on every reconciliation run, whatever the desired list,
the proxy configuration and the starting state, exactly four unit files
are written, in source order: the dupcheck service and the worker service
template with the proxy block appended, and the dupcheck timer and the
worker timer template with the bare template text. -/
theorem C6_unit_writes (tm : Templates) (ps : List (Str × Str)) (archs : List Str)
    (s : SysState) :
    writesOf (setupSystemdUnits noFail tm ps archs s).trace =
      [(dupServiceName, tm.dupService ++ proxyBlock ps),
       (dupTimerName, tm.dupTimer),
       (workerServiceTemplateName, tm.workerService ++ proxyBlock ps),
       (workerTimerTemplateName, tm.workerTimer)] := by
  rw [setup_noFail_eq]
  show writesOf ((mainCalls (proxyBlock ps) tm).map Ev.call ++
    ((enableCalls archs).map Ev.call ++ _)) = _
  rw [writesOf_append, writesOf_append, writesOf_enable, runRetirements_trace,
    writesOf_retire_flat]
  rfl

/-- C7 (corrected claim, counterexample part): the file name
launchpad-retracer-worker@foo.bar.timer matches the worker glob, the
substring between its '@' and its trailing '.timer' is "foo.bar", yet the
code's extraction — split at '@', take piece 1, split at '.', take piece
0 — yields "foo", so discovery records architecture "foo" rather than
"foo.bar". -/
theorem C7_token_counterexample :
    globMatch (chars "launchpad-retracer-worker@foo.bar.timer") = true ∧
    claimToken (chars "launchpad-retracer-worker@foo.bar.timer") = chars "foo.bar" ∧
    extractToken (wantsPath ++ chars "launchpad-retracer-worker@foo.bar.timer") =
      chars "foo" ∧
    currentArchs ⟨[], [chars "launchpad-retracer-worker@foo.bar.timer"], []⟩ =
      [chars "foo"] ∧
    chars "foo" ≠ chars "foo.bar" := by decide

theorem dropWhile_until (c : Char) :
    ∀ (xs ys : Str), c ∉ xs →
      (xs ++ c :: ys).dropWhile (fun d => decide (d ≠ c)) = c :: ys := by
  intro xs
  induction xs with
  | nil => intro ys _; simp [List.dropWhile]
  | cons x xs ih =>
    intro ys h
    have hx : x ≠ c := fun he => h (he ▸ List.mem_cons_self x xs)
    have hxs : c ∉ xs := fun hm => h (List.mem_cons_of_mem x hm)
    simp only [List.cons_append, List.dropWhile]
    rw [decide_eq_true hx]
    exact ih ys hxs

theorem claimToken_workerTimerName {a : Str} (h : ('@' : Char) ∉ a) :
    claimToken (workerTimerName a) = a := by
  have h1 : workerTimerName a = chars "launchpad-retracer-worker" ++ '@' :: (a ++ timerExt) := by
    have hw : workerAt = chars "launchpad-retracer-worker" ++ ['@'] := by decide
    simp [workerTimerName, hw, List.append_assoc, List.singleton_append]
  have h0 : ('@' : Char) ∉ chars "launchpad-retracer-worker" := by decide
  unfold claimToken
  rw [h1, dropWhile_until '@' _ _ h0, List.drop_one, List.tail_cons]
  have hlen : (a ++ timerExt).length - timerExt.length = a.length := by
    simp [List.length_append]
  show (a ++ timerExt).take ((a ++ timerExt).length - timerExt.length) = a
  rw [hlen, List.take_left]

/-- C7 (amended): live discovery lists only the wants-directory entries
matching the worker glob — an entry that does not match is ignored, it
contributes no architecture and raises no error — and for every matching
file of the shape the reconciler itself creates (token free of '.', '@'
and '/'), the code's extraction agrees with the spec's
"between '@' and '.timer'" reading and returns the architecture
exactly.  In general the code cuts at the first '.' or '@' after the '@'
instead of at the trailing ".timer". -/
theorem C7_live_discovery (f : List (Str × Str)) (w act : List Str) (n a : Str)
    (hn : globMatch n = false) (ha : cleanTok a = true) :
    currentArchs ⟨f, n :: w, act⟩ = currentArchs ⟨f, w, act⟩ ∧
    extractToken (wantsPath ++ workerTimerName a) = a ∧
    claimToken (workerTimerName a) = a := by
  refine ⟨?_, extractToken_roundtrip ha, ?_⟩
  · unfold currentArchs
    simp [List.filter_cons, hn]
  · refine claimToken_workerTimerName ?_
    intro hm
    exact absurd rfl ((cleanTok_iff.mp ha '@' hm).2.1)

/-- Witness for C7 at a concrete input: a non-matching file foo.timer is
ignored and the amd64 worker timer's token round-trips. -/
theorem C7_witness :
    globMatch (chars "foo.timer") = false ∧
    currentArchs ⟨[], chars "foo.timer" :: [chars "launchpad-retracer-worker@amd64.timer"],
        []⟩ =
      currentArchs ⟨[], [chars "launchpad-retracer-worker@amd64.timer"], []⟩ ∧
    extractToken (wantsPath ++ workerTimerName (chars "amd64")) = chars "amd64" ∧
    claimToken (workerTimerName (chars "amd64")) = chars "amd64" :=
  ⟨by decide,
   C7_live_discovery [] [chars "launchpad-retracer-worker@amd64.timer"] []
     (chars "foo.timer") (chars "amd64") (by decide) (by decide)⟩

/-- C4 (corrected claim, counterexample part): with an "architectures"
value of a single blank (which splits to the empty list), the install
handler blocks having performed nothing, but the config-changed handler
has already imported the credentials — a side effect — before the
empty-architectures validation error blocks it. -/
theorem C4_empty_arch_counterexample :
    let cfg : Config := ⟨some (chars " "), some (chars "sid")⟩
    onInstall cfg none = .done (.blocked installBlockedMsg) [] ∧
    onConfigChanged cfg (some [(chars "lpcredentials", chars "tok")]) none none =
      .done (.blocked configureFailMsg) [.importCreds (chars "tok")] ∧
    actsOf (onConfigChanged cfg (some [(chars "lpcredentials", chars "tok")]) none none)
      ≠ [] := by decide

/-- C4 (amended): an "architectures" value that splits to the empty list
raises ValueError in _get_architectures; the install handler rejects it
with a blocked status before performing any side effect, and the
config-changed handler never runs Retracer.configure or Retracer.install
(so no unit file is written) and always surfaces a blocked status —
although on the config-changed path the credential import may already
have happened before the validation. -/
theorem C4_empty_arch_rejected (v : Str) (cfg : Config) (ie : Option PyErr)
    (secret : Option (List (Str × Str))) (iErr cErr : Option PyErr)
    (hv : pySplitWs v = []) (hcfg : cfg.architectures = some v)
    (hiErr : iErr = none ∨ iErr = some .osError ∨ iErr = some .keyError) :
    getArchitectures cfg = .error .valueError ∧
    onInstall cfg ie = .done (.blocked installBlockedMsg) [] ∧
    hasUnitWriteAct (actsOf (onConfigChanged cfg secret iErr cErr)) = false ∧
    isBlocked (onConfigChanged cfg secret iErr cErr) = true := by
  have hga : getArchitectures cfg = .error .valueError := by
    unfold getArchitectures
    rw [hcfg]
    simp [hv]
  have key : ∃ m acts, onConfigChanged cfg secret iErr cErr = .done (.blocked m) acts ∧
      hasUnitWriteAct acts = false := by
    cases hc : cfg.credentialsId with
    | none =>
      refine ⟨credIdMsg, [], ?_, rfl⟩
      simp [onConfigChanged, hc]
    | some sid =>
      cases secret with
      | none =>
        refine ⟨secretGrantMsg, [], ?_, rfl⟩
        simp [onConfigChanged, hc]
      | some content =>
        cases hk : lookupKV content (chars "lpcredentials") with
        | none =>
          refine ⟨secretKeyMsg, [], ?_, rfl⟩
          simp [onConfigChanged, hc, hk]
        | some vv =>
          by_cases hvv : vv = []
          · refine ⟨secretKeyMsg, [], ?_, rfl⟩
            simp [onConfigChanged, hc, hk, hvv]
          · rcases hiErr with rfl | rfl | rfl
            · refine ⟨configureFailMsg, [.importCreds vv], ?_, rfl⟩
              simp [onConfigChanged, hc, hk, hvv, hga, configureCaughtErr]
            · refine ⟨importFailMsg, [.importCreds vv], ?_, rfl⟩
              simp [onConfigChanged, hc, hk, hvv, importCaughtErr]
            · refine ⟨importFailMsg, [.importCreds vv], ?_, rfl⟩
              simp [onConfigChanged, hc, hk, hvv, importCaughtErr]
  obtain ⟨m, acts, heq, hacts⟩ := key
  refine ⟨hga, ?_, ?_, ?_⟩
  · unfold onInstall
    rw [hga]
    rfl
  · rw [heq]
    exact hacts
  · rw [heq]
    rfl

/-- Witness for C4 at a concrete input: architectures " ", a granted
secret with an lpcredentials value, and no injected failures. -/
theorem C4_witness :
    pySplitWs (chars " ") = [] ∧
    getArchitectures ⟨some (chars " "), some (chars "sid")⟩ = .error .valueError ∧
    onInstall ⟨some (chars " "), some (chars "sid")⟩ none =
      .done (.blocked installBlockedMsg) [] ∧
    hasUnitWriteAct (actsOf (onConfigChanged ⟨some (chars " "), some (chars "sid")⟩
      (some [(chars "lpcredentials", chars "tok")]) none none)) = false ∧
    isBlocked (onConfigChanged ⟨some (chars " "), some (chars "sid")⟩
      (some [(chars "lpcredentials", chars "tok")]) none none) = true :=
  ⟨by decide,
   C4_empty_arch_rejected (chars " ") ⟨some (chars " "), some (chars "sid")⟩ none
     (some [(chars "lpcredentials", chars "tok")]) none none
     (by decide) rfl (Or.inl rfl)⟩

/-- C8: when the secret is retrievable but its content has no truthy
lpcredentials value, config-changed blocks with the reason naming the
required "'lpcredentials' key exists" — a reason distinct from the one
used when the secret itself is not retrievable — and in both situations
no credential import and no configure run happens (the performed
operations are empty). -/
theorem C8_secret_key_blocked (cfg : Config) (sid : Str) (kv : List (Str × Str))
    (iErr cErr : Option PyErr)
    (hcfg : cfg.credentialsId = some sid)
    (hkv : lookupKV kv (chars "lpcredentials") = none ∨
           lookupKV kv (chars "lpcredentials") = some []) :
    onConfigChanged cfg (some kv) iErr cErr = .done (.blocked secretKeyMsg) [] ∧
    onConfigChanged cfg none iErr cErr = .done (.blocked secretGrantMsg) [] ∧
    secretKeyMsg ≠ secretGrantMsg ∧
    strHasSub (chars "'lpcredentials' key exists") secretKeyMsg = true := by
  refine ⟨?_, ?_, by decide, by decide⟩
  · rcases hkv with hk | hk <;> simp [onConfigChanged, hcfg, hk]
  · simp [onConfigChanged, hcfg]

/-- Witness for C8 at a concrete input: a secret whose content carries
only an unrelated key. -/
theorem C8_witness :
    onConfigChanged ⟨some (chars "amd64"), some (chars "sid")⟩
      (some [(chars "other", chars "x")]) none none =
      .done (.blocked secretKeyMsg) [] ∧
    onConfigChanged ⟨some (chars "amd64"), some (chars "sid")⟩ none none none =
      .done (.blocked secretGrantMsg) [] ∧
    secretKeyMsg ≠ secretGrantMsg ∧
    strHasSub (chars "'lpcredentials' key exists") secretKeyMsg = true :=
  C8_secret_key_blocked ⟨some (chars "amd64"), some (chars "sid")⟩ (chars "sid")
    [(chars "other", chars "x")] none none rfl (Or.inl (by decide))

theorem fsGet_fsSet (fs : FS) (p : Str) (m : FileMeta) :
    fsGet (fsSet fs p m) p = some m := by
  unfold fsGet fsSet
  simp [List.find?_cons]

/-- C9 (corrected claim, counterexample part): importing over a
pre-existing credential file with mode 0644 leaves the mode at 0644, not
the claimed exactly-0600. -/
theorem C9_import_counterexample :
    let fs0 : FS := [(lpCredentialsPath, ⟨chars "old", 0o644, chars "root", chars "root"⟩)]
    (fsGet (importLpcredentials fs0 (chars "new")) lpCredentialsPath).map
      (fun m => m.mode) ≠ some 0o600 ∧
    (fsGet (importLpcredentials fs0 (chars "new")) lpCredentialsPath).map
      (fun m => m.mode) = some 0o644 := by decide

/-- C9 (amended): for every content string, import_lpcredentials replaces
the credential file's content with that string (creating the file when
absent, truncating it when present) and sets its ownership to the ubuntu
service account, after which has_credentials returns true; the 0600 mode
is applied when the call creates the file, while a pre-existing file
keeps the mode it already had. -/
theorem C9_import_credentials (fs : FS) (content : Str) :
    fsGet (importLpcredentials fs content) lpCredentialsPath =
      some ⟨content,
            (match fsGet fs lpCredentialsPath with
             | none => 0o600
             | some old => old.mode),
            chars "ubuntu", chars "ubuntu"⟩ ∧
    hasCredentials (importLpcredentials fs content) = true := by
  constructor
  · unfold importLpcredentials
    cases h : fsGet fs lpCredentialsPath with
    | none => rw [fsGet_fsSet]
    | some old => rw [fsGet_fsSet]
  · unfold hasCredentials importLpcredentials
    rw [fsGet_fsSet]
    rfl

/-- C10: when the credential file is absent, the start handler records the
workload version, surfaces the blocked status "Launchpad credentials not
available." and returns without running Retracer.start: neither the
configuration-checkout git pull nor the nginx restart is attempted. -/
theorem C10_no_credentials_blocked (fs : FS) (cfg : Config) (version : Str)
    (pullErr nginxErr : Option PyErr)
    (h : fsGet fs lpCredentialsPath = none) :
    onStart fs cfg version pullErr nginxErr =
      .done (.blocked credsMissingMsg) [.setWorkloadVersion version] ∧
    Act.gitPull ∉ actsOf (onStart fs cfg version pullErr nginxErr) ∧
    Act.restartNginx ∉ actsOf (onStart fs cfg version pullErr nginxErr) := by
  have hc : hasCredentials fs = false := by
    unfold hasCredentials
    rw [h]
    rfl
  have he : onStart fs cfg version pullErr nginxErr =
      .done (.blocked credsMissingMsg) [.setWorkloadVersion version] := by
    unfold onStart
    rw [hc]
    rfl
  refine ⟨he, ?_, ?_⟩ <;> rw [he] <;> simp [actsOf]

/-- Witness for C10 at a concrete input: an empty filesystem. -/
theorem C10_witness :
    onStart [] ⟨some (chars "amd64"), some (chars "sid")⟩ (chars "1.0") none none =
      .done (.blocked credsMissingMsg) [.setWorkloadVersion (chars "1.0")] ∧
    Act.gitPull ∉ actsOf (onStart [] ⟨some (chars "amd64"), some (chars "sid")⟩
      (chars "1.0") none none) ∧
    Act.restartNginx ∉ actsOf (onStart [] ⟨some (chars "amd64"), some (chars "sid")⟩
      (chars "1.0") none none) :=
  C10_no_credentials_blocked [] ⟨some (chars "amd64"), some (chars "sid")⟩
    (chars "1.0") none none rfl
